import Mathlib

/-!
Verification development for the chess rules engine in `chess_logic.py`
(repository ChessLM). The Python classes `Piece`/`Board`/`ChessGame` are
shallowly embedded: the 8x8 grid becomes a total function from integer
coordinates to optional pieces, every read goes through the bounds-checked
`getPiece` (mirroring `Board.get_piece`, and the data model's rule that
out-of-range coordinates denote "no square"), and the mutating methods
become functions returning new states.
-/

namespace ChessLM

/-- Piece colors, `'W'` / `'B'` in the source. -/
inductive Color
  | W
  | B
deriving DecidableEq

/-- The six piece kinds (the Python classes `Pawn` .. `King`). -/
inductive Kind
  | Pawn
  | Rook
  | Knight
  | Bishop
  | Queen
  | King
deriving DecidableEq

/-- A piece: kind, color and the `has_moved` flag (`Piece.__init__`). -/
structure Piece where
  kind : Kind
  color : Color
  hasMoved : Bool
deriving DecidableEq

/-- The opponent of a color (`'B' if color == 'W' else 'W'`). -/
def opp : Color → Color
  | Color.W => Color.B
  | Color.B => Color.W

/-- Pawn direction: `-1 if self.color == 'W' else 1`. -/
def pawnDir : Color → Int
  | Color.W => -1
  | Color.B => 1

/-- A square, as a (row, column) pair of integers, row 0 at the top
(Black's back rank), exactly as the Python grid is indexed. -/
abbrev Square := Int × Int

/-- The 8x8 grid of `Board.board`: a total function; only the cells with
both coordinates in `[0,7]` are meaningful, all reads go through
`getPiece`. -/
abbrev Board := Int → Int → Option Piece

/-- `Board.get_piece`: bounds-checked read; out-of-range coordinates give
`none` (no square). -/
def getPiece (b : Board) (r c : Int) : Option Piece :=
  if 0 ≤ r ∧ r ≤ 7 ∧ 0 ≤ c ∧ c ≤ 7 then b r c else none

/-- Write one cell of the grid (a Python item assignment). -/
def setPiece (b : Board) (r c : Int) (v : Option Piece) : Board :=
  fun r1 c1 => if r1 = r ∧ c1 = c then v else b r1 c1

/-- Rook slide directions, in source order. -/
def rookDirs : List (Int × Int) := [(0, 1), (0, -1), (1, 0), (-1, 0)]

/-- Bishop slide directions, in source order. -/
def bishopDirs : List (Int × Int) := [(1, 1), (1, -1), (-1, 1), (-1, -1)]

/-- Knight offsets, in source order. -/
def knightOffsets : List (Int × Int) :=
  [(2, 1), (2, -1), (-2, 1), (-2, -1), (1, 2), (1, -2), (-1, 2), (-1, -2)]

/-- King offsets, in source order. -/
def kingOffsets : List (Int × Int) :=
  [(0, 1), (0, -1), (1, 0), (-1, 0), (1, 1), (1, -1), (-1, 1), (-1, -1)]

/-- One sliding ray (the `for i in range(1, 8)` loop body of
`Rook.get_possible_moves` / `Bishop.get_possible_moves`): `steps` is the
number of loop iterations left, `i` the current multiplier. -/
def rayFrom (color : Color) (b : Board) (r c dr dc : Int) : Nat → Int → List Square
  | 0, _ => []
  | steps + 1, i =>
    let nr := r + dr * i
    let nc := c + dc * i
    if 0 ≤ nr ∧ nr ≤ 7 ∧ 0 ≤ nc ∧ nc ≤ 7 then
      match getPiece b nr nc with
      | none => (nr, nc) :: rayFrom color b r c dr dc steps (i + 1)
      | some q => if q.color ≠ color then [(nr, nc)] else []
    else []

/-- `Rook.get_possible_moves`. -/
def rookMoves (color : Color) (r c : Int) (b : Board) : List Square :=
  rookDirs.flatMap fun dir => rayFrom color b r c dir.1 dir.2 7 1

/-- `Bishop.get_possible_moves`. -/
def bishopMoves (color : Color) (r c : Int) (b : Board) : List Square :=
  bishopDirs.flatMap fun dir => rayFrom color b r c dir.1 dir.2 7 1

/-- `Knight.get_possible_moves`. -/
def knightMoves (color : Color) (r c : Int) (b : Board) : List Square :=
  knightOffsets.flatMap fun off =>
    let nr := r + off.1
    let nc := c + off.2
    if 0 ≤ nr ∧ nr ≤ 7 ∧ 0 ≤ nc ∧ nc ≤ 7 then
      match getPiece b nr nc with
      | none => [(nr, nc)]
      | some q => if q.color ≠ color then [(nr, nc)] else []
    else []

/-- The 8-neighbour part of `King.get_possible_moves` (no castling,
i.e. the `game_context=None` behaviour). -/
def kingAdjMoves (color : Color) (r c : Int) (b : Board) : List Square :=
  kingOffsets.flatMap fun off =>
    let nr := r + off.1
    let nc := c + off.2
    if 0 ≤ nr ∧ nr ≤ 7 ∧ 0 ≤ nc ∧ nc ≤ 7 then
      match getPiece b nr nc with
      | none => [(nr, nc)]
      | some q => if q.color ≠ color then [(nr, nc)] else []
    else []

/-- `Pawn.get_possible_moves`: forward push, double push from an unmoved
pawn, diagonal captures, and the en-passant diagonal onto the supplied
target square. -/
def pawnMoves (p : Piece) (r c : Int) (b : Board) (ep : Option Square) : List Square :=
  let d := pawnDir p.color
  let fwd : List Square :=
    if 0 ≤ r + d ∧ r + d ≤ 7 ∧ getPiece b (r + d) c = none then
      (r + d, c) ::
        (if p.hasMoved = false ∧ 0 ≤ r + 2 * d ∧ r + 2 * d ≤ 7 ∧
            getPiece b (r + 2 * d) c = none ∧ getPiece b (r + d) c = none then
          [(r + 2 * d, c)]
        else [])
    else []
  let caps : List Square :=
    [(-1 : Int), 1].flatMap fun dc =>
      let nr := r + d
      let nc := c + dc
      if 0 ≤ nr ∧ nr ≤ 7 ∧ 0 ≤ nc ∧ nc ≤ 7 then
        (match getPiece b nr nc with
         | some q => if q.color ≠ p.color then [(nr, nc)] else []
         | none => []) ++
        (if ep = some (nr, nc) then [(nr, nc)] else [])
      else []
  fwd ++ caps

/-- `piece.get_possible_moves(r, c, board_state)` with default arguments:
the per-kind dispatch (Pawn with no en-passant target, King with no game
context). -/
def pieceRawMoves (p : Piece) (r c : Int) (b : Board) : List Square :=
  match p.kind with
  | Kind.Pawn => pawnMoves p r c b none
  | Kind.Rook => rookMoves p.color r c b
  | Kind.Knight => knightMoves p.color r c b
  | Kind.Bishop => bishopMoves p.color r c b
  | Kind.Queen => rookMoves p.color r c b ++ bishopMoves p.color r c b
  | Kind.King => kingAdjMoves p.color r c b

/-- `ChessGame.find_king`: first square (row-major scan) holding a King of
the given color. -/
def findKing (color : Color) (b : Board) : Option Square :=
  ((List.range 8).flatMap fun r => (List.range 8).map fun c => (((r : Int), (c : Int)) : Square)).find?
    fun sq =>
      match getPiece b sq.1 sq.2 with
      | some p => p.kind == Kind.King && p.color == color
      | none => false

/-- The body of the scan in `ChessGame.is_square_attacked` for one cell
`(ri, ci)`: does a piece of `atk` standing there attack `(rt, ct)`?
Pawns attack only their two forward diagonals, Kings only their eight
neighbours, the rest via their raw move shape. -/
def attackCell (rt ct : Int) (atk : Color) (b : Board) (ri ci : Int) : Bool :=
  match getPiece b ri ci with
  | some p =>
    if p.color = atk then
      match p.kind with
      | Kind.Pawn =>
        decide ((ri + pawnDir p.color = rt) ∧ (ci + 1 = ct ∨ ci - 1 = ct))
      | Kind.King =>
        decide ((rt, ct) ∈ kingOffsets.filterMap fun off =>
          if ri + off.1 = rt ∧ ci + off.2 = ct then some (ri + off.1, ci + off.2) else none)
      | _ => decide ((rt, ct) ∈ pieceRawMoves p ri ci b)
    else false
  | none => false

/-- `ChessGame.is_square_attacked`. -/
def isSquareAttacked (rt ct : Int) (atk : Color) (b : Board) : Bool :=
  (List.range 8).any fun ri =>
    (List.range 8).any fun ci => attackCell rt ct atk b (ri : Int) (ci : Int)

/-- `ChessGame.is_in_check`: locate the king; a missing king is reported
as "in check". -/
def isInCheck (color : Color) (b : Board) : Bool :=
  match findKing color b with
  | none => true
  | some kp => isSquareAttacked kp.1 kp.2 (opp color) b

/-- The castling side selector, the strings `'K'` / `'Q'` of the source. -/
inductive Side
  | K
  | Q
deriving DecidableEq

/-- The four flags of `self.castling_rights`. -/
structure CastlingRights where
  WK : Bool
  WQ : Bool
  BK : Bool
  BQ : Bool
deriving DecidableEq

/-- Dictionary read `self.castling_rights[color][side]`. -/
def CastlingRights.get (cr : CastlingRights) : Color → Side → Bool
  | Color.W, Side.K => cr.WK
  | Color.W, Side.Q => cr.WQ
  | Color.B, Side.K => cr.BK
  | Color.B, Side.Q => cr.BQ

/-- Dictionary write `self.castling_rights[color][side] = False`. -/
def CastlingRights.clear (cr : CastlingRights) : Color → Side → CastlingRights
  | Color.W, Side.K => { cr with WK := false }
  | Color.W, Side.Q => { cr with WQ := false }
  | Color.B, Side.K => { cr with BK := false }
  | Color.B, Side.Q => { cr with BQ := false }

/-- The guard `not isinstance(king, King) or king.has_moved or
king.color != color` of `can_castle`, negated: the cell holds an unmoved
King of the right color. -/
def cellHoldsCastlingKing (o : Option Piece) (color : Color) : Bool :=
  match o with
  | some k => decide (k.kind = Kind.King) && !k.hasMoved && decide (k.color = color)
  | none => false

/-- The guard `not isinstance(rook, Rook) or rook.has_moved or
rook.color != color` of `can_castle`, negated: the cell holds an unmoved
Rook of the right color. -/
def cellHoldsCastlingRook (o : Option Piece) (color : Color) : Bool :=
  match o with
  | some rk => decide (rk.kind = Kind.Rook) && !rk.hasMoved && decide (rk.color = color)
  | none => false

/-- `ChessGame.can_castle(color, side, board_state,
check_intermediate_squares_attack)`, as the conjunction of its sequential
early-return guards, in source order: not currently in check; the right
King unmoved on its home square; the castling-rights flag; the right Rook
unmoved on its home corner; the squares between them empty; and, when
requested, the transit squares unattacked. -/
def canCastle (cr : CastlingRights) (color : Color) (side : Side) (b : Board)
    (chk : Bool) : Bool :=
  let kingR : Int := if color = Color.W then 7 else 0
  let kingC : Int := 4
  let rookC : Int := match side with | Side.K => 7 | Side.Q => 0
  let emptyCols : List Int := match side with
    | Side.K => [kingC + 1, kingC + 2]
    | Side.Q => [kingC - 1, kingC - 2, kingC - 3]
  let travCols : List Int := match side with
    | Side.K => [kingC + 1, kingC + 2]
    | Side.Q => [kingC - 1, kingC - 2]
  !(isInCheck color b) &&
  cellHoldsCastlingKing (getPiece b kingR kingC) color &&
  cr.get color side &&
  cellHoldsCastlingRook (getPiece b kingR rookC) color &&
  emptyCols.all (fun cc => (getPiece b kingR cc).isNone) &&
  (!chk || travCols.all fun cc => !(isSquareAttacked kingR cc (opp color) b))

/-- The tri-state result of `ChessGame.process_move`: Python `True`,
`False`, or the string `"PROMOTION_NEEDED"`. -/
inductive ProcessResult
  | success
  | failure
  | promotionNeeded
deriving DecidableEq

/-- The mutable fields of a `ChessGame` instance. -/
structure GameState where
  board : Board
  currentPlayer : Color
  castlingRights : CastlingRights
  epTarget : Option Square
  halfmoveClock : Nat
  fullmoveNumber : Nat
  statusMessage : String
  gameOverMessage : Option String

/-- `King.get_possible_moves` with a live game context: the eight
neighbours plus the two-file castling pseudo-moves, offered when the king
has not moved and `can_castle` succeeds in its cheap
(no-attack-scanning) mode. -/
def kingCtxMoves (g : GameState) (p : Piece) (r c : Int) : List Square :=
  kingAdjMoves p.color r c g.board ++
  (if p.hasMoved = false then
    (if canCastle g.castlingRights p.color Side.K g.board false then [(r, c + 2)] else []) ++
    (if canCastle g.castlingRights p.color Side.Q g.board false then [(r, c - 2)] else [])
  else [])

/-- `ChessGame.get_all_possible_moves_for_player(color)` on the live
board: the row-major scan collecting every piece's pseudo-legal moves
(pawns see the game's en-passant target, the king sees the game context).
-/
def possibleMovesForPlayer (g : GameState) (color : Color) : List (Square × Square) :=
  (List.range 8).flatMap fun r =>
    (List.range 8).flatMap fun c =>
      match getPiece g.board (r : Int) (c : Int) with
      | some p =>
        if p.color = color then
          (match p.kind with
           | Kind.Pawn => pawnMoves p (r : Int) (c : Int) g.board g.epTarget
           | Kind.King => kingCtxMoves g p (r : Int) (c : Int)
           | _ => pieceRawMoves p (r : Int) (c : Int) g.board).map
            fun m => ((((r : Int), (c : Int)) : Square), m)
        else []
      | none => []

/-- The scratch board built inside `get_all_legal_moves_for_player` for
one candidate move: the deep-copied grid with the castling rook
relocation, the en-passant pawn removal, and the main displacement
applied. -/
def simulateMove (g : GameState) (fr tg : Square) : Board :=
  match getPiece g.board fr.1 fr.2 with
  | none => g.board
  | some p =>
    let b1 :=
      if p.kind = Kind.King ∧ (tg.2 - fr.2).natAbs = 2 then
        let rookC1 : Int := if tg.2 < fr.2 then 0 else 7
        let rookC2 : Int := fr.2 + (if fr.2 < tg.2 then 1 else -1)
        setPiece (setPiece g.board fr.1 rookC2 (getPiece g.board fr.1 rookC1)) fr.1 rookC1 none
      else g.board
    let b2 :=
      if p.kind = Kind.Pawn ∧ g.epTarget = some tg ∧ (tg.2 - fr.2).natAbs = 1 ∧
          getPiece b1 tg.1 tg.2 = none then
        setPiece b1 fr.1 tg.2 none
      else b1
    setPiece (setPiece b2 tg.1 tg.2 (some p)) fr.1 fr.2 none

/-- `ChessGame.get_all_legal_moves_for_player(color)`: the pseudo-legal
moves whose simulated application does not leave `color`'s king in check;
a castling candidate must additionally pass `can_castle` in its strict
(attack-scanning) mode. -/
def legalMovesForPlayer (g : GameState) (color : Color) : List (Square × Square) :=
  (possibleMovesForPlayer g color).filter fun mv =>
    match getPiece g.board mv.1.1 mv.1.2 with
    | none => false
    | some p =>
      (if p.kind = Kind.King ∧ (mv.2.2 - mv.1.2).natAbs = 2 then
        canCastle g.castlingRights color (if mv.1.2 < mv.2.2 then Side.K else Side.Q)
          g.board true
      else true) &&
      !(isInCheck color (simulateMove g mv.1 mv.2))

/-- The single-character color tags `'W'` / `'B'` used in status strings. -/
def colorStr : Color → String
  | Color.W => "W"
  | Color.B => "B"

/-- Python truthiness of `self.game_over_message` (an optional string):
`None` and the empty string are falsy. -/
def pyTruthy : Option String → Bool
  | none => false
  | some s => decide (s ≠ "")

/-- The promotion lookup `promo_map.get(str(choice).upper(), Queen)`:
unknown or missing choices default to Queen. -/
def promoKind : Option Char → Kind
  | some ch =>
    if ch.toUpper = 'Q' then Kind.Queen
    else if ch.toUpper = 'R' then Kind.Rook
    else if ch.toUpper = 'B' then Kind.Bishop
    else if ch.toUpper = 'N' then Kind.Knight
    else Kind.Queen
  | none => Kind.Queen

/-- The return bundle of `Board.make_move`: the resulting grid plus
`captured_piece, is_pawn_move, is_capture-or-en-passant`. -/
structure MoveOutcome where
  board : Board
  captured : Option Piece
  isPawnMove : Bool
  isCapture : Bool

/-- `Board.make_move(from_sq, to_sq, promotion_choice_char)`: the
mechanical move application — castling rook relocation, en-passant pawn
removal, the main displacement, promotion substitution, and the
moved-piece `has_moved` flag. An empty source square returns the grid
unchanged with `(None, False, False)`. -/
def makeMove (b : Board) (fr tg : Square) (promo : Option Char) : MoveOutcome :=
  match getPiece b fr.1 fr.2 with
  | none => { board := b, captured := none, isPawnMove := false, isCapture := false }
  | some piece =>
    let captured0 := getPiece b tg.1 tg.2
    let isCastling := piece.kind = Kind.King ∧ (tg.2 - fr.2).natAbs = 2
    let isEp := ¬isCastling ∧ piece.kind = Kind.Pawn ∧ (tg.2 - fr.2).natAbs = 1 ∧
      getPiece b tg.1 tg.2 = none
    let b1 :=
      if isCastling then
        let rookC1 : Int := if tg.2 < fr.2 then 0 else 7
        let rookC2 : Int := fr.2 + (if fr.2 < tg.2 then 1 else -1)
        let rook := getPiece b fr.1 rookC1
        setPiece (setPiece b fr.1 rookC2 (rook.map fun rk => { rk with hasMoved := true }))
          fr.1 rookC1 none
      else b
    let captured : Option Piece := if isEp then getPiece b fr.1 tg.2 else captured0
    let b2 := if isEp then setPiece b1 fr.1 tg.2 none else b1
    let b3 := setPiece (setPiece b2 tg.1 tg.2 (some piece)) fr.1 fr.2 none
    let promoApplies := piece.kind = Kind.Pawn ∧
      ((piece.color = Color.W ∧ tg.1 = 0) ∨ (piece.color = Color.B ∧ tg.1 = 7))
    let b4 :=
      if promoApplies then
        setPiece b3 tg.1 tg.2
          (some { kind := promoKind promo, color := piece.color, hasMoved := true })
      else if fr = tg then b3
      else setPiece b3 tg.1 tg.2 (some { piece with hasMoved := true })
    { board := b4, captured := captured,
      isPawnMove := decide (piece.kind = Kind.Pawn),
      isCapture := captured0.isSome || decide isEp }

/-- First half of `ChessGame.update_castling_rights`: moving a King
clears both of that color's flags; moving a Rook off its home corner
clears that flag. -/
def updateCastlingRightsMove (cr : CastlingRights) (moved : Piece) (fr : Square) :
    CastlingRights :=
  if moved.kind = Kind.King then
    (cr.clear moved.color Side.K).clear moved.color Side.Q
  else if moved.kind = Kind.Rook then
    if fr.1 = (if moved.color = Color.W then 7 else 0) then
      if fr.2 = 0 then cr.clear moved.color Side.Q
      else if fr.2 = 7 then cr.clear moved.color Side.K
      else cr
    else cr
  else cr

/-- `ChessGame.update_castling_rights`: the move half above, then — when
a Rook was captured on its home corner — clearing the captured color's
corresponding flag. -/
def updateCastlingRights (cr : CastlingRights) (moved : Piece) (fr : Square)
    (capturedOrig : Option Piece) (tg : Square) : CastlingRights :=
  let cr1 := updateCastlingRightsMove cr moved fr
  match capturedOrig with
  | some cap =>
    if cap.kind = Kind.Rook then
      if tg.1 = (if cap.color = Color.W then 7 else 0) then
        if tg.2 = 0 then cr1.clear cap.color Side.Q
        else if tg.2 = 7 then cr1.clear cap.color Side.K
        else cr1
      else cr1
    else cr1
  | none => cr1

/-- The tail of `ChessGame.process_move` once the move has been validated:
apply the move, update the halfmove clock, castling rights and en-passant
target, switch the player, and derive the check / checkmate / stalemate
status of the new side to move. (The source reads the moved piece back
via `get_piece(r2, c2)`; if that read came back empty — a path on which
Python would raise — the rights are left as they were.) -/
def applyLegalMove (g : GameState) (fr tg : Square) (promo : Option Char) :
    ProcessResult × GameState :=
  let originalAtTo := getPiece g.board tg.1 tg.2
  let mo := makeMove g.board fr tg promo
  let hm := if mo.isPawnMove || mo.isCapture then 0 else g.halfmoveClock + 1
  let cr :=
    match getPiece mo.board tg.1 tg.2 with
    | some moved => updateCastlingRights g.castlingRights moved fr originalAtTo tg
    | none => g.castlingRights
  let ep : Option Square :=
    match getPiece mo.board tg.1 tg.2 with
    | some moved =>
      if moved.kind = Kind.Pawn ∧ (fr.1 - tg.1).natAbs = 2 then
        some ((fr.1 + tg.1) / 2, fr.2)
      else none
    | none => none
  let fullmove := if g.currentPlayer = Color.B then g.fullmoveNumber + 1 else g.fullmoveNumber
  let np := opp g.currentPlayer
  let g1 : GameState :=
    { board := mo.board, currentPlayer := np, castlingRights := cr, epTarget := ep,
      halfmoveClock := hm, fullmoveNumber := fullmove, statusMessage := "",
      gameOverMessage := g.gameOverMessage }
  let inChk := isInCheck np mo.board
  let lm := legalMovesForPlayer g1 np
  if inChk && lm.isEmpty then
    let msg := "Checkmate! " ++ (if np = Color.W then "Black" else "White") ++ " wins."
    (ProcessResult.success, { g1 with statusMessage := msg, gameOverMessage := some msg })
  else if !inChk && lm.isEmpty then
    let msg := "Stalemate! It\x27s a draw."
    (ProcessResult.success, { g1 with statusMessage := msg, gameOverMessage := some msg })
  else if inChk then
    (ProcessResult.success, { g1 with statusMessage := colorStr np ++ "\x27s turn. Check!" })
  else
    (ProcessResult.success, { g1 with statusMessage := colorStr np ++ "\x27s turn." })

/-- `ChessGame.process_move(from_sq, to_sq, promotion_choice_char)`:
reject when the game is over, the source square is empty or holds the
wrong color, or the pair is not a legal move; signal a missing promotion
choice; otherwise apply the move. -/
def processMove (g : GameState) (fr tg : Square) (promo : Option Char) :
    ProcessResult × GameState :=
  if pyTruthy g.gameOverMessage then (ProcessResult.failure, g)
  else
    match getPiece g.board fr.1 fr.2 with
    | none =>
      (ProcessResult.failure, { g with statusMessage := "Invalid selection or not your turn." })
    | some piece =>
      if piece.color ≠ g.currentPlayer then
        (ProcessResult.failure, { g with statusMessage := "Invalid selection or not your turn." })
      else if (fr, tg) ∉ legalMovesForPlayer g g.currentPlayer then
        (ProcessResult.failure, { g with statusMessage :=
          "Illegal move." ++
            (if isInCheck g.currentPlayer g.board then
              " " ++ colorStr g.currentPlayer ++ " is in check!"
            else "") })
      else if piece.kind = Kind.Pawn ∧
          ((piece.color = Color.W ∧ tg.1 = 0) ∨ (piece.color = Color.B ∧ tg.1 = 7)) ∧
          promo = none then
        (ProcessResult.promotionNeeded, { g with statusMessage := "" })
      else
        applyLegalMove g fr tg promo

/-- The FEN letter of a piece (`self.symbol`): uppercase for White,
lowercase for Black. -/
def pieceSymbol (p : Piece) : String :=
  let ch : Char :=
    match p.kind with
    | Kind.Pawn => 'P'
    | Kind.Rook => 'R'
    | Kind.Knight => 'N'
    | Kind.Bishop => 'B'
    | Kind.Queen => 'Q'
    | Kind.King => 'K'
  if p.color = Color.W then String.singleton ch else String.singleton ch.toLower

/-- One rank of the FEN placement field: pieces as letters, runs of empty
cells as digit counts (the `empty_count` loop of `get_fen`). -/
def rankFen (b : Board) (r : Int) : String :=
  let res := (List.range 8).foldl
    (fun (acc : String × Nat) c =>
      match getPiece b r (c : Int) with
      | some p =>
        ((acc.1 ++ (if acc.2 > 0 then toString acc.2 else "") ++ pieceSymbol p : String), 0)
      | none => (acc.1, acc.2 + 1))
    ("", 0)
  res.1 ++ (if res.2 > 0 then toString res.2 else "")

/-- `to_notation`: a square as algebraic file-letter + rank-digit, `None`
out of range. -/
def toAlg (sq : Square) : Option String :=
  if 0 ≤ sq.1 ∧ sq.1 ≤ 7 ∧ 0 ≤ sq.2 ∧ sq.2 ≤ 7 then
    some (String.singleton (Char.ofNat ('a'.toNat + sq.2.toNat)) ++ toString (8 - sq.1))
  else none

/-- `ChessGame.get_fen`: the six space-separated FEN fields. -/
def getFen (g : GameState) : String :=
  let placement := String.intercalate "/" ((List.range 8).map fun r => rankFen g.board (r : Int))
  let active := if g.currentPlayer = Color.W then "w" else "b"
  let castling :=
    (if g.castlingRights.WK then "K" else "") ++
    (if g.castlingRights.WQ then "Q" else "") ++
    (if g.castlingRights.BK then "k" else "") ++
    (if g.castlingRights.BQ then "q" else "")
  let castling := if castling = "" then "-" else castling
  let ep :=
    match g.epTarget with
    | none => "-"
    | some sq =>
      match toAlg sq with
      | some s => s
      | none => "None"
  placement ++ " " ++ active ++ " " ++ castling ++ " " ++ ep ++ " " ++
    toString g.halfmoveClock ++ " " ++ toString g.fullmoveNumber

/-- The back-rank piece kind at column `c` (`Board.setup_pieces`). -/
def backRankKind (c : Int) : Kind :=
  if c = 0 ∨ c = 7 then Kind.Rook
  else if c = 1 ∨ c = 6 then Kind.Knight
  else if c = 2 ∨ c = 5 then Kind.Bishop
  else if c = 3 then Kind.Queen
  else Kind.King

/-- The grid built by `Board.setup_pieces`. -/
def initBoard : Board := fun r c =>
  if 0 ≤ c ∧ c ≤ 7 then
    if r = 0 then some { kind := backRankKind c, color := Color.B, hasMoved := false }
    else if r = 1 then some { kind := Kind.Pawn, color := Color.B, hasMoved := false }
    else if r = 6 then some { kind := Kind.Pawn, color := Color.W, hasMoved := false }
    else if r = 7 then some { kind := backRankKind c, color := Color.W, hasMoved := false }
    else none
  else none

/-- A freshly constructed `ChessGame` (`ChessGame.__init__`). -/
def initGame : GameState :=
  { board := initBoard
    currentPlayer := Color.W
    castlingRights := { WK := true, WQ := true, BK := true, BQ := true }
    epTarget := none
    halfmoveClock := 0
    fullmoveNumber := 1
    statusMessage := "White\x27s turn."
    gameOverMessage := none }

/-! Specification-side vocabulary, following the wording of the claims
(home squares, transit squares, per-kind attack reach, capture shapes),
to be compared with the source-derived functions above. -/

/-- The home rank of a color's king and rooks (rank 7 for White, 0 for
Black in grid coordinates). -/
def homeRow : Color → Int
  | Color.W => 7
  | Color.B => 0

/-- The home column of the rook on the given castling side. -/
def rookHomeCol : Side → Int
  | Side.K => 7
  | Side.Q => 0

/-- Columns strictly between the king (column 4) and the rook. -/
def betweenCols : Side → List Int
  | Side.K => [5, 6]
  | Side.Q => [1, 2, 3]

/-- Columns the king transits through or lands on when castling. -/
def transitCols : Side → List Int
  | Side.K => [5, 6]
  | Side.Q => [3, 2]

/-- Full castling legality as the specification words it: the rights flag
is set, the King of that color stands unmoved on its home square, a Rook
of that color stands unmoved on the corresponding home file, every square
strictly between them is empty, the King is not currently in check, and —
only when `chk` is set — no transit or landing square of the King is
attacked by the opponent. -/
def canCastleSpec (cr : CastlingRights) (color : Color) (side : Side) (b : Board)
    (chk : Bool) : Prop :=
  cr.get color side = true ∧
  (∃ k, getPiece b (homeRow color) 4 = some k ∧ k.kind = Kind.King ∧
    k.color = color ∧ k.hasMoved = false) ∧
  (∃ rk, getPiece b (homeRow color) (rookHomeCol side) = some rk ∧ rk.kind = Kind.Rook ∧
    rk.color = color ∧ rk.hasMoved = false) ∧
  (∀ cc ∈ betweenCols side, getPiece b (homeRow color) cc = none) ∧
  isInCheck color b = false ∧
  (chk = true →
    ∀ cc ∈ transitCols side, isSquareAttacked (homeRow color) cc (opp color) b = false)

/-- Per-kind attack reach as the specification words it: a pawn only
through its two forward-diagonal capture cells, a king only through its
eight adjacent cells, every other kind exactly through its pseudo-legal
move shape. -/
def pieceAttacks (b : Board) (pr pc : Int) (p : Piece) (rt ct : Int) : Prop :=
  match p.kind with
  | Kind.Pawn => pr + pawnDir p.color = rt ∧ (pc + 1 = ct ∨ pc - 1 = ct)
  | Kind.King => ∃ off ∈ kingOffsets, pr + off.1 = rt ∧ pc + off.2 = ct
  | _ => (rt, ct) ∈ pieceRawMoves p pr pc b

/-- The moved piece is a pawn (read off the pre-move board). -/
def pawnMoveFrom (g : GameState) (fr : Square) : Prop :=
  ∃ p, getPiece g.board fr.1 fr.2 = some p ∧ p.kind = Kind.Pawn

/-- The move is a capture as the specification words it: the destination
holds a piece, or the move is an en-passant capture (a pawn moving one
file sideways onto an empty destination). -/
def captureShape (g : GameState) (fr tg : Square) : Prop :=
  (getPiece g.board tg.1 tg.2).isSome = true ∨
  (pawnMoveFrom g fr ∧ (tg.2 - fr.2).natAbs = 1 ∧ getPiece g.board tg.1 tg.2 = none)

/-- Every pawn that has never moved still stands on its color's starting
rank (rank 6 for White, rank 1 for Black). This holds in every reachable
position and is what rules out a double-step advance landing on a
promotion rank. -/
def pawnStartOk (b : Board) : Bool :=
  (List.range 8).all fun r =>
    (List.range 8).all fun c =>
      match getPiece b (r : Int) (c : Int) with
      | some p =>
        decide (p.kind = Kind.Pawn → p.hasMoved = false →
          (p.color = Color.W → (r : Int) = 6) ∧ (p.color = Color.B → (r : Int) = 1))
      | none => true

/-- Every cell of `b2` is unchanged from `b`, empty, or holds a piece
marked as moved. All grids produced by `Board.make_move` relate to their
input this way. -/
def cellKeeps (b b2 : Board) : Prop :=
  ∀ r c : Int,
    getPiece b2 r c = getPiece b r c ∨ getPiece b2 r c = none ∨
    ∃ p, getPiece b2 r c = some p ∧ p.hasMoved = true

/-- The game states reachable from a freshly constructed game through
`process_move` calls (failed calls included — they return the state
unchanged). -/
inductive Reachable : GameState → Prop
  | init : Reachable initGame
  | step (g : GameState) (fr tg : Square) (promo : Option Char) (h : Reachable g) :
      Reachable (processMove g fr tg promo).2

/-! Concrete positions used to witness the theorems below. -/

/-- A sparse position: both kings alone, both already moved. -/
def twoKingsBoard : Board := fun r c =>
  if r = 7 ∧ c = 4 then some { kind := Kind.King, color := Color.W, hasMoved := true }
  else if r = 0 ∧ c = 0 then some { kind := Kind.King, color := Color.B, hasMoved := true }
  else none

/-- A live two-kings game, White to move. -/
def gTwoKings : GameState :=
  { board := twoKingsBoard
    currentPlayer := Color.W
    castlingRights := { WK := false, WQ := false, BK := false, BQ := false }
    epTarget := none
    halfmoveClock := 0
    fullmoveNumber := 1
    statusMessage := "White\x27s turn."
    gameOverMessage := none }

/-- A finished game: same position but with a game-over message set. -/
def gFinished : GameState :=
  { gTwoKings with
    statusMessage := "Checkmate! White wins."
    gameOverMessage := some "Checkmate! White wins." }

/-- Two moved kings plus a moved White pawn one step from promotion. -/
def promoBoard : Board := fun r c =>
  if r = 7 ∧ c = 4 then some { kind := Kind.King, color := Color.W, hasMoved := true }
  else if r = 0 ∧ c = 7 then some { kind := Kind.King, color := Color.B, hasMoved := true }
  else if r = 1 ∧ c = 2 then some { kind := Kind.Pawn, color := Color.W, hasMoved := true }
  else none

/-- A live game around `promoBoard`, White to move. -/
def gPromo : GameState :=
  { board := promoBoard
    currentPlayer := Color.W
    castlingRights := { WK := false, WQ := false, BK := false, BQ := false }
    epTarget := none
    halfmoveClock := 0
    fullmoveNumber := 1
    statusMessage := "White\x27s turn."
    gameOverMessage := none }

/-- A game identical to `gTwoKings` except that White's kingside castling
right is already gone. -/
def gNoWK : GameState :=
  { gTwoKings with castlingRights := { WK := false, WQ := true, BK := true, BQ := true } }

/-- A lone White rook, for attack-reach witnesses. -/
def rookBoard : Board := fun r c =>
  if r = 3 ∧ c = 3 then some { kind := Kind.Rook, color := Color.W, hasMoved := true }
  else none

/-! Theorems. -/

/-- Claim C6: on a freshly constructed game, `get_fen` returns exactly
the standard initial-position FEN string. -/
theorem initial_fen :
    getFen initGame = "rnbqkbnr/pppppppp/8/8/8/8/PPPPPPPP/RNBQKBNR w KQkq - 0 1" := by
  decide

/-- Claim C2: once `game_over_message` holds a (nonempty) message — as
checkmate/stalemate detection sets it — every `process_move` call, with
any arguments, returns failure and leaves the whole game state unchanged.
-/
theorem terminal_rejects_unchanged (g : GameState) (fr tg : Square) (promo : Option Char)
    (m : String) (h1 : g.gameOverMessage = some m) (h2 : m ≠ "") :
    processMove g fr tg promo = (ProcessResult.failure, g) := by
  have ht : pyTruthy g.gameOverMessage = true := by
    rw [h1]; simpa [pyTruthy] using h2
  simp [processMove, ht]

/-- Witness for C2: a concrete finished game rejects a move unchanged. -/
theorem terminal_rejects_unchanged_w :
    processMove gFinished ((0 : Int), (0 : Int)) ((1 : Int), (1 : Int)) none =
      (ProcessResult.failure, gFinished) :=
  terminal_rejects_unchanged gFinished ((0 : Int), (0 : Int)) ((1 : Int), (1 : Int)) none
    "Checkmate! White wins." rfl (by decide)

/-- Claim C3: on a non-terminal state, a `process_move` call whose source
square is empty, holds a piece of the wrong color, or whose pair is not
among the legal moves, fails with a nonempty status string and leaves the
board, side to move, castling rights, en-passant target and both clocks
unchanged. -/
theorem invalid_input_rejected (g : GameState) (fr tg : Square) (promo : Option Char)
    (hterm : pyTruthy g.gameOverMessage = false)
    (hbad : getPiece g.board fr.1 fr.2 = none
      ∨ (∃ p, getPiece g.board fr.1 fr.2 = some p ∧ p.color ≠ g.currentPlayer)
      ∨ (fr, tg) ∉ legalMovesForPlayer g g.currentPlayer) :
    (processMove g fr tg promo).1 = ProcessResult.failure ∧
    (processMove g fr tg promo).2.statusMessage ≠ "" ∧
    (processMove g fr tg promo).2.board = g.board ∧
    (processMove g fr tg promo).2.currentPlayer = g.currentPlayer ∧
    (processMove g fr tg promo).2.castlingRights = g.castlingRights ∧
    (processMove g fr tg promo).2.epTarget = g.epTarget ∧
    (processMove g fr tg promo).2.halfmoveClock = g.halfmoveClock ∧
    (processMove g fr tg promo).2.fullmoveNumber = g.fullmoveNumber := by
  cases hgp : getPiece g.board fr.1 fr.2 with
  | none =>
    have heq : processMove g fr tg promo =
        (ProcessResult.failure,
          { g with statusMessage := "Invalid selection or not your turn." }) := by
      simp [processMove, hterm, hgp]
    rw [heq]
    refine ⟨rfl, ?_, rfl, rfl, rfl, rfl, rfl, rfl⟩
    show ("Invalid selection or not your turn." : String) ≠ ""
    decide
  | some p =>
    by_cases hc : p.color = g.currentPlayer
    · have hnl : (fr, tg) ∉ legalMovesForPlayer g g.currentPlayer := by
        rcases hbad with h | ⟨q, hq, hqc⟩ | h
        · rw [hgp] at h; cases h
        · rw [hgp] at hq
          injection hq with e
          exact absurd hc (e ▸ hqc)
        · exact h
      have heq : processMove g fr tg promo =
          (ProcessResult.failure,
            { g with statusMessage :=
              "Illegal move." ++
                (if isInCheck g.currentPlayer g.board then
                  " " ++ colorStr g.currentPlayer ++ " is in check!"
                else "") }) := by
        simp [processMove, hterm, hgp, hc, hnl]
      rw [heq]
      refine ⟨rfl, ?_, rfl, rfl, rfl, rfl, rfl, rfl⟩
      show ("Illegal move." ++
        (if isInCheck g.currentPlayer g.board then
          " " ++ colorStr g.currentPlayer ++ " is in check!" else "") : String) ≠ ""
      cases hchk : isInCheck g.currentPlayer g.board
      · simp only [Bool.false_eq_true, if_false]
        decide
      · cases hcp : g.currentPlayer <;> simp [colorStr]
    · have heq : processMove g fr tg promo =
          (ProcessResult.failure,
            { g with statusMessage := "Invalid selection or not your turn." }) := by
        simp [processMove, hterm, hgp, hc]
      rw [heq]
      refine ⟨rfl, ?_, rfl, rfl, rfl, rfl, rfl, rfl⟩
      show ("Invalid selection or not your turn." : String) ≠ ""
      decide

/-- Witness for C3: selecting an empty square of a live game fails and
preserves the state. -/
theorem invalid_input_rejected_w :
    (processMove gTwoKings ((4 : Int), (4 : Int)) ((4 : Int), (5 : Int)) none).1 =
      ProcessResult.failure ∧
    (processMove gTwoKings ((4 : Int), (4 : Int)) ((4 : Int), (5 : Int)) none).2.statusMessage ≠ "" ∧
    (processMove gTwoKings ((4 : Int), (4 : Int)) ((4 : Int), (5 : Int)) none).2.board =
      gTwoKings.board ∧
    (processMove gTwoKings ((4 : Int), (4 : Int)) ((4 : Int), (5 : Int)) none).2.currentPlayer =
      gTwoKings.currentPlayer ∧
    (processMove gTwoKings ((4 : Int), (4 : Int)) ((4 : Int), (5 : Int)) none).2.castlingRights =
      gTwoKings.castlingRights ∧
    (processMove gTwoKings ((4 : Int), (4 : Int)) ((4 : Int), (5 : Int)) none).2.epTarget =
      gTwoKings.epTarget ∧
    (processMove gTwoKings ((4 : Int), (4 : Int)) ((4 : Int), (5 : Int)) none).2.halfmoveClock =
      gTwoKings.halfmoveClock ∧
    (processMove gTwoKings ((4 : Int), (4 : Int)) ((4 : Int), (5 : Int)) none).2.fullmoveNumber =
      gTwoKings.fullmoveNumber :=
  invalid_input_rejected gTwoKings ((4 : Int), (4 : Int)) ((4 : Int), (5 : Int)) none
    (by decide) (Or.inl (by decide))

/-- Claim C4, counterexample to the letter of the claim: the
"promotion choice required" path does mutate one piece of game state —
it resets `status_message` to the empty string. -/
theorem promotion_signal_clears_status :
    (processMove gPromo ((1 : Int), (2 : Int)) ((0 : Int), (2 : Int)) none).1 =
      ProcessResult.promotionNeeded ∧
    (processMove gPromo ((1 : Int), (2 : Int)) ((0 : Int), (2 : Int)) none).2.statusMessage ≠
      gPromo.statusMessage := by
  decide

/-- Claim C4 (amended): on a non-terminal state, a legal pawn move to the
farthest rank submitted without a promotion choice returns the
distinguished promotion-needed signal, leaving the board, side to move,
castling rights, en-passant target, clocks and game-over message
unchanged; only the transient status message is reset to the empty
string. -/
theorem promotion_choice_required (g : GameState) (fr tg : Square) (p : Piece)
    (hterm : pyTruthy g.gameOverMessage = false)
    (hp : getPiece g.board fr.1 fr.2 = some p)
    (hc : p.color = g.currentPlayer)
    (hl : (fr, tg) ∈ legalMovesForPlayer g g.currentPlayer)
    (hk : p.kind = Kind.Pawn)
    (hrank : (p.color = Color.W ∧ tg.1 = 0) ∨ (p.color = Color.B ∧ tg.1 = 7)) :
    processMove g fr tg none =
      (ProcessResult.promotionNeeded, { g with statusMessage := "" }) := by
  have hcne : ¬(p.color ≠ g.currentPlayer) := not_not_intro hc
  have hnl : ¬((fr, tg) ∉ legalMovesForPlayer g g.currentPlayer) := not_not_intro hl
  unfold processMove
  rw [hterm]
  simp only [Bool.false_eq_true, if_false, hp]
  rw [if_neg hcne, if_neg hnl]
  exact if_pos ⟨hk, hrank, trivial⟩

/-- Witness for C4's amended claim, at the same concrete position as the
counterexample. -/
theorem promotion_choice_required_w :
    processMove gPromo ((1 : Int), (2 : Int)) ((0 : Int), (2 : Int)) none =
      (ProcessResult.promotionNeeded, { gPromo with statusMessage := "" }) :=
  promotion_choice_required gPromo ((1 : Int), (2 : Int)) ((0 : Int), (2 : Int))
    { kind := Kind.Pawn, color := Color.W, hasMoved := true }
    (by decide) (by decide) (by decide) (by decide) rfl (by decide)

/-- Claim C1: every pair returned by `get_all_legal_moves_for_player`,
once its full mechanical effect (castling rook relocation and en-passant
pawn removal included) is applied to a copy of the board, yields a board
on which the mover's King is not attacked by the opposing color. -/
theorem legal_moves_leave_king_safe (g : GameState) (color : Color) (fr tg kp : Square)
    (hmem : (fr, tg) ∈ legalMovesForPlayer g color)
    (hk : findKing color (simulateMove g fr tg) = some kp) :
    isSquareAttacked kp.1 kp.2 (opp color) (simulateMove g fr tg) = false := by
  have h2 := (List.mem_filter.mp hmem).2
  dsimp only at h2
  have hchk : isInCheck color (simulateMove g fr tg) = false := by
    cases hgp : getPiece g.board fr.1 fr.2 with
    | none => rw [hgp] at h2; cases h2
    | some p =>
      rw [hgp] at h2
      simp only [Bool.and_eq_true, Bool.not_eq_true'] at h2
      exact h2.2
  unfold isInCheck at hchk
  simp only [hk] at hchk
  exact hchk

/-- Witness for C1: a legal king step of a concrete position leaves the
king unattacked on the simulated board. -/
theorem legal_moves_leave_king_safe_w :
    isSquareAttacked 7 3 (opp Color.W)
      (simulateMove gTwoKings ((7 : Int), (4 : Int)) ((7 : Int), (3 : Int))) = false :=
  legal_moves_leave_king_safe gTwoKings Color.W ((7 : Int), (4 : Int)) ((7 : Int), (3 : Int))
    ((7 : Int), (3 : Int)) (by decide) (by decide)

/-- Clearing one castling-rights flag never revives another: a flag that
reads false still reads false after any `clear`. -/
theorem CastlingRights.get_clear_false (cr : CastlingRights) (c : Color) (s : Side)
    (c2 : Color) (s2 : Side) (h : cr.get c s = false) :
    (cr.clear c2 s2).get c s = false := by
  cases c <;> cases s <;> cases c2 <;> cases s2 <;>
    simp_all [CastlingRights.get, CastlingRights.clear]

/-- The move half of `update_castling_rights` only ever clears flags. -/
theorem updateCastlingRightsMove_get_false (cr : CastlingRights) (moved : Piece)
    (fr : Square) (c : Color) (s : Side) (h : cr.get c s = false) :
    (updateCastlingRightsMove cr moved fr).get c s = false := by
  unfold updateCastlingRightsMove
  split_ifs <;> (repeat (first | exact h | apply CastlingRights.get_clear_false))

/-- `update_castling_rights` only ever clears flags. -/
theorem updateCastlingRights_get_false (cr : CastlingRights) (moved : Piece) (fr : Square)
    (cap : Option Piece) (tg : Square) (c : Color) (s : Side)
    (h : cr.get c s = false) :
    (updateCastlingRights cr moved fr cap tg).get c s = false := by
  have h1 := updateCastlingRightsMove_get_false cr moved fr c s h
  unfold updateCastlingRights
  cases cap with
  | none => exact h1
  | some cp =>
    dsimp only
    split_ifs <;> (repeat (first | exact h1 | apply CastlingRights.get_clear_false))

/-- The validated-move tail of `process_move` only ever clears
castling-rights flags. -/
theorem applyLegalMove_rights_mono (g : GameState) (fr tg : Square) (promo : Option Char)
    (c : Color) (s : Side) (h : g.castlingRights.get c s = false) :
    (applyLegalMove g fr tg promo).2.castlingRights.get c s = false := by
  unfold applyLegalMove
  cases hgm : getPiece (makeMove g.board fr tg promo).board tg.1 tg.2 <;>
    dsimp only <;> rw [hgm] <;> split_ifs <;>
    first
      | exact h
      | exact updateCastlingRights_get_false _ _ _ _ _ _ _ h

/-- Claim C8: each castling-rights flag is monotone across
`process_move` — false before the call implies false after it. -/
theorem castling_rights_monotone (g : GameState) (fr tg : Square) (promo : Option Char)
    (c : Color) (s : Side) (h : g.castlingRights.get c s = false) :
    (processMove g fr tg promo).2.castlingRights.get c s = false := by
  unfold processMove
  by_cases hpt : pyTruthy g.gameOverMessage = true
  · rw [if_pos hpt]; exact h
  · rw [if_neg hpt]
    cases hgp : getPiece g.board fr.1 fr.2 with
    | none => exact h
    | some p =>
      dsimp only
      split_ifs <;> first
        | exact h
        | exact applyLegalMove_rights_mono g fr tg promo c s h

/-- Witness for C8: White's already-cleared kingside flag stays cleared
across a `process_move` call. -/
theorem castling_rights_monotone_w :
    (processMove gNoWK ((0 : Int), (0 : Int)) ((0 : Int), (1 : Int)) none).2.castlingRights.get
      Color.W Side.K = false :=
  castling_rights_monotone gNoWK ((0 : Int), (0 : Int)) ((0 : Int), (1 : Int)) none
    Color.W Side.K (by decide)

/-- A cell passes the castling-king guard exactly when it holds an
unmoved King of the color. -/
theorem cellHoldsCastlingKing_iff (o : Option Piece) (color : Color) :
    cellHoldsCastlingKing o color = true ↔
      ∃ k, o = some k ∧ k.kind = Kind.King ∧ k.color = color ∧ k.hasMoved = false := by
  cases o with
  | none => simp [cellHoldsCastlingKing]
  | some k =>
    simp [cellHoldsCastlingKing, Bool.and_eq_true, Bool.not_eq_true', decide_eq_true_eq]
    tauto

/-- A cell passes the castling-rook guard exactly when it holds an
unmoved Rook of the color. -/
theorem cellHoldsCastlingRook_iff (o : Option Piece) (color : Color) :
    cellHoldsCastlingRook o color = true ↔
      ∃ rk, o = some rk ∧ rk.kind = Kind.Rook ∧ rk.color = color ∧ rk.hasMoved = false := by
  cases o with
  | none => simp [cellHoldsCastlingRook]
  | some rk =>
    simp [cellHoldsCastlingRook, Bool.and_eq_true, Bool.not_eq_true', decide_eq_true_eq]
    tauto

/-- Claim C5: `can_castle(color, side, board, check_intermediate_attacks)`
returns true exactly under the specification's conjunction: rights flag
set, unmoved King on its home square, unmoved Rook on the corresponding
home file, the squares strictly between them empty, the King not in
check, and — only when the flag is set — the King's transit and landing
squares unattacked. -/
theorem can_castle_iff (cr : CastlingRights) (color : Color) (side : Side) (b : Board)
    (chk : Bool) :
    canCastle cr color side b chk = true ↔ canCastleSpec cr color side b chk := by
  cases color <;> cases side <;> cases chk <;>
    simp [canCastle, canCastleSpec, homeRow, rookHomeCol, betweenCols, transitCols,
      cellHoldsCastlingKing_iff, cellHoldsCastlingRook_iff,
      Bool.and_eq_true, Bool.not_eq_true', List.all_eq_true, Option.isNone_iff_eq_none] <;>
    tauto

/-- One cell of the attack scan fires exactly when the cell holds a piece
of the attacking color whose per-kind attack reach covers the target. -/
theorem attackCell_iff (rt ct : Int) (atk : Color) (b : Board) (ri ci : Int) :
    attackCell rt ct atk b ri ci = true ↔
      ∃ p, getPiece b ri ci = some p ∧ p.color = atk ∧ pieceAttacks b ri ci p rt ct := by
  cases hgp : getPiece b ri ci with
  | none => simp [attackCell, hgp]
  | some p =>
    by_cases hc : p.color = atk
    · cases hk : p.kind <;>
        simp [attackCell, hgp, hc, pieceAttacks, hk, decide_eq_true_eq,
          List.mem_filterMap, Option.ite_none_right_eq_some, Prod.mk.injEq]
    · simp [attackCell, hgp, hc]

/-- Claim C7: for an in-bounds target square, `is_square_attacked` holds
exactly when some on-board piece of the attacking color reaches the
square under the per-kind attack rules (pawn: forward diagonals only;
king: eight neighbours only; others: their pseudo-legal move shape). -/
theorem is_square_attacked_iff (rt ct : Int) (atk : Color) (b : Board)
    (_hbounds : 0 ≤ rt ∧ rt ≤ 7 ∧ 0 ≤ ct ∧ ct ≤ 7) :
    isSquareAttacked rt ct atk b = true ↔
      ∃ pr pc : Int, 0 ≤ pr ∧ pr ≤ 7 ∧ 0 ≤ pc ∧ pc ≤ 7 ∧
        ∃ p, getPiece b pr pc = some p ∧ p.color = atk ∧ pieceAttacks b pr pc p rt ct := by
  unfold isSquareAttacked
  simp only [List.any_eq_true, List.mem_range]
  constructor
  · rintro ⟨ri, hri, ci, hci, hcell⟩
    exact ⟨(ri : Int), (ci : Int), by omega, by omega, by omega, by omega,
      (attackCell_iff rt ct atk b (ri : Int) (ci : Int)).mp hcell⟩
  · rintro ⟨pr, pc, h1, h2, h3, h4, hcell⟩
    refine ⟨pr.toNat, by omega, pc.toNat, by omega, ?_⟩
    have e1 : ((pr.toNat : Nat) : Int) = pr := Int.toNat_of_nonneg h1
    have e2 : ((pc.toNat : Nat) : Int) = pc := Int.toNat_of_nonneg h3
    rw [e1, e2]
    exact (attackCell_iff rt ct atk b pr pc).mpr hcell

/-- Witness for C7 at a concrete board: a lone White rook on d5 and the
target square g5. -/
theorem is_square_attacked_iff_w :
    isSquareAttacked 3 6 Color.W rookBoard = true ↔
      ∃ pr pc : Int, 0 ≤ pr ∧ pr ≤ 7 ∧ 0 ≤ pc ∧ pc ≤ 7 ∧
        ∃ p, getPiece rookBoard pr pc = some p ∧ p.color = Color.W ∧
          pieceAttacks rookBoard pr pc p 3 6 :=
  is_square_attacked_iff 3 6 Color.W rookBoard (by decide)

/-- Reading through a single-cell write: the written value inside the
bounds, the old board elsewhere. -/
theorem getPiece_setPiece (b : Board) (r0 c0 : Int) (v : Option Piece) (r c : Int) :
    getPiece (setPiece b r0 c0 v) r c =
      if r = r0 ∧ c = c0 then (if 0 ≤ r ∧ r ≤ 7 ∧ 0 ≤ c ∧ c ≤ 7 then v else none)
      else getPiece b r c := by
  unfold getPiece setPiece
  by_cases h1 : r = r0 ∧ c = c0 <;> by_cases h2 : 0 ≤ r ∧ r ≤ 7 ∧ 0 ≤ c ∧ c ≤ 7 <;>
    simp [h1, h2]

/-- A successful bounded read implies the coordinates are in range. -/
theorem getPiece_some_bounds (b : Board) (r c : Int) (p : Piece)
    (h : getPiece b r c = some p) : 0 ≤ r ∧ r ≤ 7 ∧ 0 ≤ c ∧ c ≤ 7 := by
  unfold getPiece at h
  by_cases h2 : 0 ≤ r ∧ r ≤ 7 ∧ 0 ≤ c ∧ c ≤ 7
  · exact h2
  · rw [if_neg h2] at h; cases h

/-- Unpacking `pawnStartOk` at one occupied cell. -/
theorem pawnStartOk_at (b : Board) (hok : pawnStartOk b = true) (r c : Int) (p : Piece)
    (hp : getPiece b r c = some p) (hk : p.kind = Kind.Pawn) (hm : p.hasMoved = false) :
    (p.color = Color.W → r = 6) ∧ (p.color = Color.B → r = 1) := by
  obtain ⟨hr0, hr7, hc0, hc7⟩ := getPiece_some_bounds b r c p hp
  unfold pawnStartOk at hok
  simp only [List.all_eq_true, List.mem_range] at hok
  have h5 := hok r.toNat (by omega) c.toNat (by omega)
  rw [Int.toNat_of_nonneg hr0, Int.toNat_of_nonneg hc0, hp] at h5
  exact of_decide_eq_true h5 hk hm

/-- `pawnStartOk` survives any cell-wise change to empty or to
already-moved pieces. -/
theorem pawnStartOk_of_cellKeeps (b b2 : Board) (h1 : pawnStartOk b = true)
    (h2 : cellKeeps b b2) : pawnStartOk b2 = true := by
  unfold pawnStartOk
  simp only [List.all_eq_true, List.mem_range]
  intro r hr c hc
  rcases h2 (r : Int) (c : Int) with he | hn | ⟨p, hp, hm⟩
  · rw [he]
    unfold pawnStartOk at h1
    simp only [List.all_eq_true, List.mem_range] at h1
    exact h1 r hr c hc
  · rw [hn]
  · rw [hp]; simp [hm]

/-- An out-of-range read is always empty. -/
theorem getPiece_oob (b : Board) (r c : Int) (h : ¬(0 ≤ r ∧ r ≤ 7 ∧ 0 ≤ c ∧ c ≤ 7)) :
    getPiece b r c = none := by
  unfold getPiece; exact if_neg h

set_option maxHeartbeats 1000000 in
/-- `Board.make_move` changes cells only to empty or to pieces marked as
moved: the moved piece, a promoted piece and the castled rook all leave
with `has_moved` set, and vacated or en-passant-captured cells are
emptied. -/
theorem makeMove_cellKeeps (b : Board) (fr tg : Square) (promo : Option Char) :
    cellKeeps b (makeMove b fr tg promo).board := by
  intro r c
  by_cases hb : 0 ≤ r ∧ r ≤ 7 ∧ 0 ≤ c ∧ c ≤ 7
  case neg => right; left; exact getPiece_oob _ r c hb
  case pos =>
    cases hgp : getPiece b fr.1 fr.2 with
    | none => left; simp only [makeMove, hgp]
    | some piece =>
      by_cases hCa : piece.kind = Kind.King ∧ (tg.2 - fr.2).natAbs = 2 <;>
        by_cases hEp : piece.kind = Kind.Pawn ∧ (tg.2 - fr.2).natAbs = 1 ∧
          getPiece b tg.1 tg.2 = none <;>
        by_cases hPr : piece.kind = Kind.Pawn ∧
          ((piece.color = Color.W ∧ tg.1 = 0) ∨ (piece.color = Color.B ∧ tg.1 = 7)) <;>
        by_cases hFt : fr = tg <;>
        by_cases hLt : tg.2 < fr.2 <;>
        (try subst hFt) <;>
        (try exact absurd (hCa.1.symm.trans hEp.1) (by decide)) <;>
        (try exact absurd (hCa.1.symm.trans hPr.1) (by decide)) <;>
        (try simp only [makeMove, hgp, hCa, hEp, hPr, hLt, not_true, not_false_iff,
            not_false_eq_true, true_and, false_and, and_true, and_false, if_true, if_false,
            ite_true, ite_false, not_and, true_implies, false_implies, implies_true,
            eq_self_iff_true, reduceCtorEq]) <;>
        (try split_ifs) <;>
        (try simp only [getPiece_setPiece, if_pos hb]) <;>
        (try split_ifs) <;>
        all_goals (try (first
          | (left; rfl)
          | (right; left; rfl)
          | (right; right; exact ⟨_, rfl, rfl⟩)
          | (rcases hro : getPiece b fr.1 0 with _ | rk <;>
              first
                | (right; left; rfl)
                | (right; right; exact ⟨_, rfl, rfl⟩))
          | (rcases hro : getPiece b fr.1 7 with _ | rk <;>
              first
                | (right; left; rfl)
                | (right; right; exact ⟨_, rfl, rfl⟩))
          ))

/-- The validated-move tail commits exactly the grid `make_move`
produced, whatever status branch is taken. -/
theorem applyLegalMove_board (g : GameState) (fr tg : Square) (promo : Option Char) :
    (applyLegalMove g fr tg promo).2.board = (makeMove g.board fr tg promo).board := by
  unfold applyLegalMove
  dsimp only
  split_ifs <;> rfl

/-- The halfmove clock written by the validated-move tail: reset on a
pawn move or capture, incremented otherwise. -/
theorem applyLegalMove_clock (g : GameState) (fr tg : Square) (promo : Option Char) :
    (applyLegalMove g fr tg promo).2.halfmoveClock =
      if (makeMove g.board fr tg promo).isPawnMove || (makeMove g.board fr tg promo).isCapture
      then 0 else g.halfmoveClock + 1 := by
  unfold applyLegalMove
  dsimp only
  split_ifs <;> rfl

/-- The en-passant target written by the validated-move tail, in terms of
the piece found on the destination square after the move. -/
theorem applyLegalMove_ep (g : GameState) (fr tg : Square) (promo : Option Char) :
    (applyLegalMove g fr tg promo).2.epTarget =
      (match getPiece (makeMove g.board fr tg promo).board tg.1 tg.2 with
       | some moved =>
         if moved.kind = Kind.Pawn ∧ (fr.1 - tg.1).natAbs = 2 then
           some ((fr.1 + tg.1) / 2, fr.2)
         else none
       | none => none) := by
  unfold applyLegalMove
  dsimp only
  split_ifs <;> rfl

/-- `process_move` preserves the pawns-on-start-rank invariant. -/
theorem processMove_pawnStartOk (g : GameState) (fr tg : Square) (promo : Option Char)
    (h : pawnStartOk g.board = true) :
    pawnStartOk (processMove g fr tg promo).2.board = true := by
  unfold processMove
  by_cases hpt : pyTruthy g.gameOverMessage = true
  · rw [if_pos hpt]; exact h
  · rw [if_neg hpt]
    cases hgp : getPiece g.board fr.1 fr.2 with
    | none => exact h
    | some p =>
      dsimp only
      split_ifs <;>
        first
          | exact h
          | (rw [applyLegalMove_board]
             exact pawnStartOk_of_cellKeeps _ _ h (makeMove_cellKeeps _ _ _ _))

/-- In every reachable game state, every never-moved pawn stands on its
color's starting rank. -/
theorem reachable_pawnStartOk (g : GameState) (h : Reachable g) :
    pawnStartOk g.board = true := by
  induction h with
  | init => decide
  | step g fr tg promo h ih => exact processMove_pawnStartOk g fr tg promo ih

/-- The promotion map never yields a pawn. -/
theorem promoKind_ne_pawn (promo : Option Char) : promoKind promo ≠ Kind.Pawn := by
  cases promo with
  | none => decide
  | some ch =>
    unfold promoKind
    dsimp only
    split_ifs <;> decide

/-- The flags `make_move` returns: "was a pawn move" and "was a capture
(ordinary or en passant)". -/
theorem makeMove_flags (b : Board) (fr tg : Square) (promo : Option Char) (p : Piece)
    (hp : getPiece b fr.1 fr.2 = some p) :
    (makeMove b fr tg promo).isPawnMove = decide (p.kind = Kind.Pawn) ∧
    (makeMove b fr tg promo).isCapture =
      ((getPiece b tg.1 tg.2).isSome ||
        decide (¬(p.kind = Kind.King ∧ (tg.2 - fr.2).natAbs = 2) ∧ p.kind = Kind.Pawn ∧
          (tg.2 - fr.2).natAbs = 1 ∧ getPiece b tg.1 tg.2 = none)) := by
  constructor <;> simp only [makeMove, hp]

/-- A call of `process_move` that returns success got past every guard:
the game was live, the source square held a piece of the side to move,
the pair was legal, and the result is the validated-move tail. -/
theorem processMove_success_shape (g : GameState) (fr tg : Square) (promo : Option Char)
    (hs : (processMove g fr tg promo).1 = ProcessResult.success) :
    pyTruthy g.gameOverMessage = false ∧
    ∃ p, getPiece g.board fr.1 fr.2 = some p ∧ p.color = g.currentPlayer ∧
      (fr, tg) ∈ legalMovesForPlayer g g.currentPlayer ∧
      processMove g fr tg promo = applyLegalMove g fr tg promo := by
  by_cases hpt : pyTruthy g.gameOverMessage = true
  · rw [processMove, if_pos hpt] at hs
    simp at hs
  · have hptf : pyTruthy g.gameOverMessage = false := by
      rw [Bool.not_eq_true] at hpt; exact hpt
    refine ⟨hptf, ?_⟩
    unfold processMove at hs ⊢
    rw [if_neg hpt] at hs ⊢
    cases hgp : getPiece g.board fr.1 fr.2 with
    | none =>
      rw [hgp] at hs
      simp at hs
    | some p =>
      rw [hgp] at hs
      dsimp only at hs ⊢
      by_cases hc : p.color ≠ g.currentPlayer
      · rw [if_pos hc] at hs
        simp at hs
      · rw [if_neg hc] at hs ⊢
        by_cases hl : (fr, tg) ∉ legalMovesForPlayer g g.currentPlayer
        · rw [if_pos hl] at hs
          simp at hs
        · rw [if_neg hl] at hs ⊢
          by_cases hpn : p.kind = Kind.Pawn ∧
              ((p.color = Color.W ∧ tg.1 = 0) ∨ (p.color = Color.B ∧ tg.1 = 7)) ∧
              promo = none
          · rw [if_pos hpn] at hs
            simp at hs
          · rw [if_neg hpn] at hs ⊢
            exact ⟨p, rfl, not_not.mp hc, not_not.mp hl, rfl⟩

/-- Legal moves are drawn from the pseudo-legal scan. -/
theorem legal_subset_possible (g : GameState) (color : Color) (fr tg : Square)
    (h : (fr, tg) ∈ legalMovesForPlayer g color) :
    (fr, tg) ∈ possibleMovesForPlayer g color :=
  (List.mem_filter.mp h).1

/-- A pseudo-legal move of a pawn comes from `Pawn.get_possible_moves`
at the pawn's square. -/
theorem mem_possible_pawn (g : GameState) (color : Color) (fr tg : Square) (p : Piece)
    (h : (fr, tg) ∈ possibleMovesForPlayer g color)
    (hp : getPiece g.board fr.1 fr.2 = some p) (hk : p.kind = Kind.Pawn) :
    tg ∈ pawnMoves p fr.1 fr.2 g.board g.epTarget := by
  unfold possibleMovesForPlayer at h
  simp only [List.mem_flatMap, List.mem_range] at h
  obtain ⟨r, hr, c, hc, h2⟩ := h
  cases hq : getPiece g.board (r : Int) (c : Int) with
  | none => rw [hq] at h2; simp at h2
  | some q =>
    rw [hq] at h2
    dsimp only at h2
    by_cases hqc : q.color = color
    · rw [if_pos hqc] at h2
      simp only [List.mem_map] at h2
      obtain ⟨m, hm, he⟩ := h2
      injection he with he1 he2
      subst he2
      have hfr1 : fr.1 = (r : Int) := by rw [← he1]
      have hfr2 : fr.2 = (c : Int) := by rw [← he1]
      rw [hfr1, hfr2] at hp
      rw [hq] at hp
      have hpq : q = p := Option.some.inj hp
      subst hpq
      rw [hk] at hm
      rw [hfr1, hfr2]
      exact hm
    · rw [if_neg hqc] at h2
      simp at h2

/-- A pawn pseudo-move across two ranks is exactly the double push: the
pawn has not moved, the destination is two squares straight ahead, and
that row is on the board. -/
theorem pawnMoves_double (p : Piece) (r c : Int) (b : Board) (ep : Option Square)
    (tg : Square) (h : tg ∈ pawnMoves p r c b ep) (h2 : (tg.1 - r).natAbs = 2) :
    p.hasMoved = false ∧ tg = (r + 2 * pawnDir p.color, c) ∧
      0 ≤ r + 2 * pawnDir p.color ∧ r + 2 * pawnDir p.color ≤ 7 := by
  have hd : pawnDir p.color = -1 ∨ pawnDir p.color = 1 := by
    cases p.color <;> simp [pawnDir]
  unfold pawnMoves at h
  dsimp only at h
  rcases List.mem_append.mp h with h1 | h1
  · split_ifs at h1 with hc1 hc2
    · rcases List.mem_cons.mp h1 with he | he
      · exfalso
        have ht : tg.1 = r + pawnDir p.color := by rw [he]
        rcases hd with hd | hd <;> omega
      · have he2 : tg = (r + 2 * pawnDir p.color, c) := List.mem_singleton.mp he
        exact ⟨hc2.1, he2, hc2.2.1, hc2.2.2.1⟩
    · exfalso
      rcases List.mem_cons.mp h1 with he | he
      · have ht : tg.1 = r + pawnDir p.color := by rw [he]
        rcases hd with hd | hd <;> omega
      · simp at he
    · simp at h1
  · exfalso
    simp only [List.mem_flatMap] at h1
    obtain ⟨dc, hdc, hmem⟩ := h1
    have ht : tg.1 = r + pawnDir p.color := by
      by_cases hbnd : 0 ≤ r + pawnDir p.color ∧ r + pawnDir p.color ≤ 7 ∧
          0 ≤ c + dc ∧ c + dc ≤ 7
      · rw [if_pos hbnd] at hmem
        rcases List.mem_append.mp hmem with hx | hx
        · cases hgp2 : getPiece b (r + pawnDir p.color) (c + dc) with
          | none => rw [hgp2] at hx; simp at hx
          | some q2 =>
            rw [hgp2] at hx
            dsimp only at hx
            by_cases hcol : q2.color ≠ p.color
            · rw [if_pos hcol] at hx
              rw [List.mem_singleton.mp hx]
            · rw [if_neg hcol] at hx
              simp at hx
        · by_cases hce : ep = some (r + pawnDir p.color, c + dc)
          · rw [if_pos hce] at hx
            rw [List.mem_singleton.mp hx]
          · rw [if_neg hce] at hx
            simp at hx
      · rw [if_neg hbnd] at hmem
        simp at hmem
    rcases hd with hd | hd <;> omega

set_option maxHeartbeats 1000000 in
/-- The piece `make_move` leaves on the destination square: the promoted
piece on a promotion, nothing when source and destination coincide (the
cell is vacated last), the moved piece with its `has_moved` flag set
otherwise; nothing at all off the board. -/
theorem makeMove_dest (b : Board) (fr tg : Square) (promo : Option Char) (p : Piece)
    (hp : getPiece b fr.1 fr.2 = some p) :
    getPiece (makeMove b fr tg promo).board tg.1 tg.2 =
      if 0 ≤ tg.1 ∧ tg.1 ≤ 7 ∧ 0 ≤ tg.2 ∧ tg.2 ≤ 7 then
        (if p.kind = Kind.Pawn ∧
            ((p.color = Color.W ∧ tg.1 = 0) ∨ (p.color = Color.B ∧ tg.1 = 7)) then
          some { kind := promoKind promo, color := p.color, hasMoved := true }
        else if fr = tg then none
        else some { p with hasMoved := true })
      else none := by
  by_cases hbt : 0 ≤ tg.1 ∧ tg.1 ≤ 7 ∧ 0 ≤ tg.2 ∧ tg.2 ≤ 7
  case neg => rw [if_neg hbt]; exact getPiece_oob _ _ _ hbt
  case pos =>
    rw [if_pos hbt]
    by_cases hCa : p.kind = Kind.King ∧ (tg.2 - fr.2).natAbs = 2 <;>
      by_cases hEp : p.kind = Kind.Pawn ∧ (tg.2 - fr.2).natAbs = 1 ∧
        getPiece b tg.1 tg.2 = none <;>
      by_cases hPr : p.kind = Kind.Pawn ∧
        ((p.color = Color.W ∧ tg.1 = 0) ∨ (p.color = Color.B ∧ tg.1 = 7)) <;>
      by_cases hFt : fr = tg <;>
      by_cases hLt : tg.2 < fr.2 <;>
      (try subst hFt) <;>
      (try exact absurd (hCa.1.symm.trans hEp.1) (by decide)) <;>
      (try exact absurd (hCa.1.symm.trans hPr.1) (by decide)) <;>
      (try simp only [makeMove, hp, hCa, hEp, hPr, hLt, not_true, not_false_iff,
          not_false_eq_true, true_and, false_and, and_true, and_false, if_true, if_false,
          ite_true, ite_false, not_and, true_implies, false_implies, implies_true,
          eq_self_iff_true, reduceCtorEq]) <;>
      (try split_ifs) <;>
      (try simp only [getPiece_setPiece, eq_self_iff_true, and_self, if_true, if_pos hbt])

/-- Claim C9: after every successful `process_move` call in a reachable
game, the halfmove clock is reset to 0 exactly on a pawn move or a
capture (en passant included) and incremented otherwise, and the
en-passant target is set to the square midway between the source and
destination ranks exactly when the moved piece is a pawn that advanced
two ranks, and cleared otherwise. -/
theorem halfmove_clock_and_ep_target (g : GameState) (fr tg : Square) (promo : Option Char)
    (hR : Reachable g)
    (hs : (processMove g fr tg promo).1 = ProcessResult.success) :
    ((pawnMoveFrom g fr ∨ captureShape g fr tg) →
      (processMove g fr tg promo).2.halfmoveClock = 0) ∧
    (¬(pawnMoveFrom g fr ∨ captureShape g fr tg) →
      (processMove g fr tg promo).2.halfmoveClock = g.halfmoveClock + 1) ∧
    ((pawnMoveFrom g fr ∧ (tg.1 - fr.1).natAbs = 2) →
      (processMove g fr tg promo).2.epTarget = some ((fr.1 + tg.1) / 2, fr.2)) ∧
    (¬(pawnMoveFrom g fr ∧ (tg.1 - fr.1).natAbs = 2) →
      (processMove g fr tg promo).2.epTarget = none) := by
  obtain ⟨hptf, p, hp, hc, hl, heq⟩ := processMove_success_shape g fr tg promo hs
  rw [heq]
  have hflags := makeMove_flags g.board fr tg promo p hp
  have hclock := applyLegalMove_clock g fr tg promo
  have hep := applyLegalMove_ep g fr tg promo
  have hpmf : pawnMoveFrom g fr ↔ p.kind = Kind.Pawn := by
    constructor
    · rintro ⟨p2, hp2, hk2⟩
      rw [hp] at hp2
      obtain rfl := Option.some.inj hp2
      exact hk2
    · intro hk
      exact ⟨p, hp, hk⟩
  refine ⟨?_, ?_, ?_, ?_⟩
  · intro hcap
    have hb : ((makeMove g.board fr tg promo).isPawnMove ||
        (makeMove g.board fr tg promo).isCapture) = true := by
      rw [hflags.1, hflags.2]
      rcases hcap with hpm | hsome | ⟨hpm, hdc, hnone⟩
      · simp [hpmf.mp hpm]
      · simp [hsome]
      · have hk := hpmf.mp hpm
        have hnc : ¬(p.kind = Kind.King ∧ (tg.2 - fr.2).natAbs = 2) := by
          rintro ⟨hk2, -⟩
          rw [hk] at hk2
          exact Kind.noConfusion hk2
        simp [hk, hdc, hnone, hnc]
    rw [hclock, if_pos hb]
  · intro hncap
    have hnA : ¬pawnMoveFrom g fr := fun hx => hncap (Or.inl hx)
    have h1 : (makeMove g.board fr tg promo).isPawnMove = false := by
      rw [hflags.1]
      simp only [decide_eq_false_iff_not]
      exact fun hk => hnA (hpmf.mpr hk)
    have h2 : (makeMove g.board fr tg promo).isCapture = false := by
      rw [hflags.2]
      have hx1 : (getPiece g.board tg.1 tg.2).isSome = false := by
        cases hx : (getPiece g.board tg.1 tg.2).isSome with
        | false => rfl
        | true => exact absurd (Or.inr (Or.inl hx)) hncap
      rw [hx1]
      simp only [Bool.false_or, decide_eq_false_iff_not]
      rintro ⟨-, hk, hdc, hnone⟩
      exact hnA (hpmf.mpr hk)
    rw [hclock, h1, h2]
    simp
  · rintro ⟨hpm, hab⟩
    have hk := hpmf.mp hpm
    have hinv := reachable_pawnStartOk g hR
    have hmem := legal_subset_possible g g.currentPlayer fr tg hl
    have hpw := mem_possible_pawn g g.currentPlayer fr tg p hmem hp hk
    obtain ⟨hmov, htg, hrb1, hrb2⟩ :=
      pawnMoves_double p fr.1 fr.2 g.board g.epTarget tg hpw hab
    obtain ⟨hfb1, hfb2, hfb3, hfb4⟩ := getPiece_some_bounds _ _ _ _ hp
    have hranks := pawnStartOk_at g.board hinv fr.1 fr.2 p hp hk hmov
    have hdir : pawnDir p.color = -1 ∨ pawnDir p.color = 1 := by
      cases p.color <;> simp [pawnDir]
    have htg1 : tg.1 = fr.1 + 2 * pawnDir p.color := by rw [htg]
    have htg2 : tg.2 = fr.2 := by rw [htg]
    have hnp : ¬(p.kind = Kind.Pawn ∧
        ((p.color = Color.W ∧ tg.1 = 0) ∨ (p.color = Color.B ∧ tg.1 = 7))) := by
      rintro ⟨-, hcase⟩
      rcases hcase with ⟨hw, h0⟩ | ⟨hbk, h7⟩
      · have hr6 : fr.1 = 6 := hranks.1 hw
        have hdw : pawnDir p.color = -1 := by rw [hw]; rfl
        omega
      · have hr1 : fr.1 = 1 := hranks.2 hbk
        have hdb : pawnDir p.color = 1 := by rw [hbk]; rfl
        omega
    have hft : ¬(fr = tg) := by
      intro he
      have h0 : tg.1 = fr.1 := by rw [he]
      rcases hdir with hd | hd <;> omega
    have hbt : 0 ≤ tg.1 ∧ tg.1 ≤ 7 ∧ 0 ≤ tg.2 ∧ tg.2 ≤ 7 := by
      refine ⟨?_, ?_, ?_, ?_⟩ <;> omega
    have hdest := makeMove_dest g.board fr tg promo p hp
    rw [if_pos hbt, if_neg hnp, if_neg hft] at hdest
    have hab2 : (fr.1 - tg.1).natAbs = 2 := by omega
    rw [hep, hdest]
    dsimp only
    rw [if_pos ⟨hk, hab2⟩]
  · intro hn
    have hdest := makeMove_dest g.board fr tg promo p hp
    rw [hep, hdest]
    by_cases hbt : 0 ≤ tg.1 ∧ tg.1 ≤ 7 ∧ 0 ≤ tg.2 ∧ tg.2 ≤ 7
    · rw [if_pos hbt]
      by_cases hpr : p.kind = Kind.Pawn ∧
          ((p.color = Color.W ∧ tg.1 = 0) ∨ (p.color = Color.B ∧ tg.1 = 7))
      · rw [if_pos hpr]
        dsimp only
        rw [if_neg ?_]
        rintro ⟨hkp, -⟩
        exact promoKind_ne_pawn promo hkp
      · rw [if_neg hpr]
        by_cases hft : fr = tg
        · rw [if_pos hft]
        · rw [if_neg hft]
          dsimp only
          rw [if_neg ?_]
          rintro ⟨hkp, hab2⟩
          exact hn ⟨⟨p, hp, hkp⟩, by omega⟩
    · rw [if_neg hbt]

/-- Witness for C9: the double pawn push e2-e4 from the freshly
constructed game resets the clock and sets the en-passant target to e3.
-/
theorem halfmove_clock_and_ep_target_w :
    ((pawnMoveFrom initGame ((6 : Int), (4 : Int)) ∨
        captureShape initGame ((6 : Int), (4 : Int)) ((4 : Int), (4 : Int))) →
      (processMove initGame ((6 : Int), (4 : Int)) ((4 : Int), (4 : Int))
        none).2.halfmoveClock = 0) ∧
    (¬(pawnMoveFrom initGame ((6 : Int), (4 : Int)) ∨
        captureShape initGame ((6 : Int), (4 : Int)) ((4 : Int), (4 : Int))) →
      (processMove initGame ((6 : Int), (4 : Int)) ((4 : Int), (4 : Int))
        none).2.halfmoveClock = initGame.halfmoveClock + 1) ∧
    ((pawnMoveFrom initGame ((6 : Int), (4 : Int)) ∧ ((4 : Int) - 6).natAbs = 2) →
      (processMove initGame ((6 : Int), (4 : Int)) ((4 : Int), (4 : Int))
        none).2.epTarget = some (((6 : Int) + 4) / 2, (4 : Int))) ∧
    (¬(pawnMoveFrom initGame ((6 : Int), (4 : Int)) ∧ ((4 : Int) - 6).natAbs = 2) →
      (processMove initGame ((6 : Int), (4 : Int)) ((4 : Int), (4 : Int))
        none).2.epTarget = none) :=
  halfmove_clock_and_ep_target initGame ((6 : Int), (4 : Int)) ((4 : Int), (4 : Int)) none
    Reachable.init (by decide)

end ChessLM
